import Mathlib

/-!
Verification development for the Clarifile ingestion-to-answer pipeline.
Python strings are modelled as `List Char`; Python `None` as `Option.none`;
floats (similarity distances) as rationals; fallible functions return
`Except PyError`.  Each definition is a shallow embedding of the function of
the same name in `src/ingest.py`, `src/retriever.py` or `src/app.py`.
-/

/-- Python strings are modelled as lists of characters. -/
abbrev Str := List Char

/-- Whitespace recognised by Python's `str.strip` / regex `\s` for the
character repertoire this repository handles: ASCII whitespace, the file
separators, NEL and the non-breaking space U+00A0 (written `Char.ofNat 160`
so no encoding step can degrade it to a plain space). -/
def isPySpace (c : Char) : Bool :=
  c = ' ' || c = '\t' || c = '\n' || c = '\x0b' || c = '\x0c' || c = '\r' ||
  c = '\x1c' || c = '\x1d' || c = '\x1e' || c = '\x1f' || c = '\x85' ||
  c = Char.ofNat 160

/-- Left trim, as in Python `str.lstrip`. -/
def trimLeft (l : Str) : Str := l.dropWhile isPySpace

/-- Right trim, as in Python `str.rstrip`. -/
def pyRstrip (l : Str) : Str := (l.reverse.dropWhile isPySpace).reverse

/-- Python `str.strip`: drop whitespace from both ends. -/
def pyStrip (l : Str) : Str := pyRstrip (trimLeft l)

/-- The non-breaking space replacement from `clean_text`: the substitution
`text.replace(nbsp, space)` with `nbsp = U+00A0` acts on each character
(U+00A0 written `Char.ofNat 160` so no encoding step can degrade it). -/
def replNbsp (c : Char) : Char := if c = Char.ofNat 160 then ' ' else c

/-- Worker for the regex substitution `re.sub(r"\s+", " ", text)`: the flag
records whether the previous character belonged to a whitespace run, so each
maximal run of whitespace emits exactly one ordinary space. -/
def collapseAux : Bool → Str → Str
  | _, [] => []
  | prevSpace, c :: rest =>
    if isPySpace c then
      if prevSpace then collapseAux true rest
      else ' ' :: collapseAux true rest
    else c :: collapseAux false rest

/-- Embedding of `re.sub(r"\s+", " ", text)`. -/
def collapseWs (l : Str) : Str := collapseAux false l

/-- Embedding of `ingest.clean_text`.  `text` may be absent (`None`); the
guard `if (not text)` covers both `None` and the empty string. -/
def clean_text (text : Option Str) : Str :=
  match text with
  | none => []
  | some s => if s = [] then [] else collapseWs (s.map replNbsp)

/-- A string is in collapsed form (relative to the run flag): every
whitespace character is an ordinary space and never follows the flagged
previous whitespace or another space. -/
def wsNormal : Bool → Str → Bool
  | _, [] => true
  | prevSpace, c :: rest =>
    if isPySpace c then !prevSpace && (c = ' ') && wsNormal true rest
    else wsNormal false rest

theorem wsNormal_collapseAux (l : Str) : ∀ b, wsNormal b (collapseAux b l) = true := by
  induction l with
  | nil => intro b; rfl
  | cons c rest ih =>
    intro b
    by_cases hc : isPySpace c
    · cases b with
      | true => rw [collapseAux, if_pos hc, if_pos rfl]; exact ih true
      | false =>
        rw [collapseAux, if_pos hc, if_neg (by simp)]
        rw [wsNormal, if_pos (by simp [isPySpace])]
        simpa using ih true
    · rw [collapseAux, if_neg hc, wsNormal, if_neg hc]
      exact ih false

theorem collapseAux_of_wsNormal (l : Str) :
    ∀ b, wsNormal b l = true → collapseAux b l = l := by
  induction l with
  | nil => intro b _; rfl
  | cons c rest ih =>
    intro b h
    by_cases hc : isPySpace c
    · rw [wsNormal, if_pos hc] at h
      simp only [Bool.and_eq_true, Bool.not_eq_true', decide_eq_true_eq] at h
      obtain ⟨⟨hb, hsp⟩, hn⟩ := h
      subst hb
      rw [collapseAux, if_pos hc, if_neg (by simp), hsp, ih true hn]
    · rw [wsNormal, if_neg hc] at h
      rw [collapseAux, if_neg hc, ih false h]

/-- Collapsing whitespace is idempotent. -/
theorem collapseWs_idem (l : Str) : collapseWs (collapseWs l) = collapseWs l :=
  collapseAux_of_wsNormal _ false (wsNormal_collapseAux l false)

theorem mem_collapseAux (l : Str) :
    ∀ b, ∀ c ∈ collapseAux b l, c = ' ' ∨ c ∈ l := by
  induction l with
  | nil => intro b c hc; simp [collapseAux] at hc
  | cons a rest ih =>
    intro b c hc
    by_cases ha : isPySpace a
    · cases b with
      | true =>
        rw [collapseAux, if_pos ha, if_pos rfl] at hc
        rcases ih true c hc with h | h
        · left; exact h
        · right; exact List.mem_cons_of_mem _ h
      | false =>
        rw [collapseAux, if_pos ha, if_neg (by simp)] at hc
        rcases List.mem_cons.mp hc with hc | hc
        · left; exact hc
        · rcases ih true c hc with h | h
          · left; exact h
          · right; exact List.mem_cons_of_mem _ h
    · rw [collapseAux, if_neg ha] at hc
      rcases List.mem_cons.mp hc with hc | hc
      · right; simp [hc]
      · rcases ih false c hc with h | h
        · left; exact h
        · right; exact List.mem_cons_of_mem _ h

theorem replNbsp_fixed (c : Char) : replNbsp (replNbsp c) = replNbsp c := by
  by_cases h : c = Char.ofNat 160
  · subst h; decide
  · simp [replNbsp, h]

/-- After `clean_text` no non-breaking space remains, so the replacement
pass of a second application is the identity. -/
theorem map_replNbsp_collapseWs (l : Str) :
    (collapseWs (l.map replNbsp)).map replNbsp = collapseWs (l.map replNbsp) := by
  have h : ∀ c ∈ collapseWs (l.map replNbsp), replNbsp c = c := by
    intro c hc
    rcases mem_collapseAux _ false c hc with h | h
    · rw [h]; decide
    · rcases List.mem_map.mp h with ⟨d, _, rfl⟩
      exact replNbsp_fixed d
  calc (collapseWs (l.map replNbsp)).map replNbsp
      = (collapseWs (l.map replNbsp)).map id := List.map_congr_left (by simpa using h)
    _ = collapseWs (l.map replNbsp) := List.map_id _

/-- C7.  Normalization (`clean_text`) is idempotent, and empty or absent
input yields the empty string without error. -/
theorem C7_clean_text_idempotent :
    (∀ x : Option Str, clean_text (some (clean_text x)) = clean_text x) ∧
    clean_text none = [] ∧ clean_text (some []) = [] := by
  refine ⟨?_, rfl, rfl⟩
  intro x
  match x with
  | none => rfl
  | some s =>
    by_cases hs : s = []
    · simp [clean_text, hs]
    · have h1 : clean_text (some s) = collapseWs (s.map replNbsp) := by
        simp only [clean_text]; rw [if_neg hs]
      rw [h1]
      by_cases h2 : collapseWs (s.map replNbsp) = []
      · simp [clean_text, h2]
      · simp only [clean_text]
        rw [if_neg h2, map_replNbsp_collapseWs, collapseWs_idem]

theorem dropWhile_idem (p : Char → Bool) (l : Str) :
    (l.dropWhile p).dropWhile p = l.dropWhile p := by
  induction l with
  | nil => rfl
  | cons a l ih =>
    by_cases h : p a
    · rw [List.dropWhile_cons_of_pos h]; exact ih
    · rw [List.dropWhile_cons_of_neg h, List.dropWhile_cons_of_neg h]

theorem dropWhile_eq_drop (p : Char → Bool) (l : Str) : ∃ k, l.dropWhile p = l.drop k := by
  induction l with
  | nil => exact ⟨0, rfl⟩
  | cons a l ih =>
    by_cases h : p a
    · obtain ⟨k, hk⟩ := ih
      exact ⟨k + 1, by rw [List.dropWhile_cons_of_pos h]; simpa using hk⟩
    · exact ⟨0, by rw [List.dropWhile_cons_of_neg h]; rfl⟩

theorem pyRstrip_eq_take (l : Str) : ∃ n, pyRstrip l = l.take n := by
  obtain ⟨k, hk⟩ := dropWhile_eq_drop isPySpace l.reverse
  refine ⟨l.length - k, ?_⟩
  rw [pyRstrip, hk, List.reverse_drop]
  simp

theorem pyRstrip_idem (l : Str) : pyRstrip (pyRstrip l) = pyRstrip l := by
  unfold pyRstrip
  rw [List.reverse_reverse, dropWhile_idem]

theorem trimLeft_head_false {l : Str} {a : Char} {m : Str}
    (h : trimLeft l = a :: m) : isPySpace a = false := by
  induction l with
  | nil => simp [trimLeft] at h
  | cons b l ih =>
    by_cases hb : isPySpace b
    · rw [trimLeft, List.dropWhile_cons_of_pos hb] at h
      exact ih h
    · rw [trimLeft, List.dropWhile_cons_of_neg hb] at h
      cases h
      simpa using hb

/-- Stripping is idempotent: a stripped string is its own stripped form. -/
theorem pyStrip_idem (l : Str) : pyStrip (pyStrip l) = pyStrip l := by
  unfold pyStrip
  rcases hy : trimLeft l with _ | ⟨a, m⟩
  · simp [pyRstrip, trimLeft]
  · have ha : isPySpace a = false := trimLeft_head_false hy
    have hTL : trimLeft (pyRstrip (a :: m)) = pyRstrip (a :: m) := by
      obtain ⟨n, hn⟩ := pyRstrip_eq_take (a :: m)
      cases n with
      | zero => rw [hn]; rfl
      | succ n =>
        rw [hn]
        show trimLeft (a :: m.take n) = a :: m.take n
        rw [trimLeft, List.dropWhile_cons_of_neg (by simp [ha])]
    rw [hTL, pyRstrip_idem]

theorem pyRstrip_length_le (l : Str) : (pyRstrip l).length ≤ l.length := by
  rw [pyRstrip]
  simpa using (List.dropWhile_sublist isPySpace (l := l.reverse)).length_le

theorem pyStrip_length_le (l : Str) : (pyStrip l).length ≤ l.length :=
  le_trans (pyRstrip_length_le _)
    (by simpa [trimLeft] using (List.dropWhile_sublist isPySpace (l := l)).length_le)

theorem pyStrip_nil : pyStrip [] = [] := rfl

/-- Step size derived in `chunk_text`: `max(1, chunk_chars - overlap_chars)`. -/
def step_size (chunkChars overlapChars : Int) : Nat :=
  (max 1 (chunkChars - overlapChars)).toNat

theorem step_size_pos (c o : Int) : 0 < step_size c o := by
  have h : (1 : Int) ≤ max 1 (c - o) := le_max_left _ _
  unfold step_size
  omega

/-- The scanning loop of `chunk_text` (`while i < len(text)`), with the
window `text[i : i + chunk_chars]` stripped and kept when non-empty and `i`
advancing by `step` each iteration.  `fuel` bounds the remaining
iterations; since `step ≥ 1` the loop runs at most `len(text)` times, so
the wrapper passes `len(text)` and `chunkLoopF_fuel` shows that any
sufficient fuel gives the same value. -/
def chunkLoopF (text : Str) (chunkN step : Nat) : Nat → Nat → List Str
  | _, 0 => []
  | i, fuel + 1 =>
    if i < text.length then
      (let segment := pyStrip ((text.drop i).take chunkN)
       if segment = [] then [] else [segment]) ++ chunkLoopF text chunkN step (i + step) fuel
    else []

/-- Embedding of `ingest.chunk_text`.  The guard `not text or not
text.strip()` is expressed as `pyStrip text = []` (which also holds for the
empty string); slice bounds and the parameters are Python integers. -/
def chunk_text (text : Str) (chunkChars : Int) (overlapChars : Int) : List Str :=
  if pyStrip text = [] then []
  else if (text.length : Int) ≤ chunkChars then [pyStrip text]
  else chunkLoopF text chunkChars.toNat (step_size chunkChars overlapChars) 0 text.length

/-- Variant of the scanning loop that also records the window start
position of each kept chunk, for stating overlap properties. -/
def chunkLoopIdxF (text : Str) (chunkN step : Nat) : Nat → Nat → List (Nat × Str)
  | _, 0 => []
  | i, fuel + 1 =>
    if i < text.length then
      (let segment := pyStrip ((text.drop i).take chunkN)
       if segment = [] then [] else [(i, segment)]) ++ chunkLoopIdxF text chunkN step (i + step) fuel
    else []

/-- `chunk_text` instrumented with window start positions. -/
def chunkTextIdx (text : Str) (chunkChars : Int) (overlapChars : Int) : List (Nat × Str) :=
  if pyStrip text = [] then []
  else if (text.length : Int) ≤ chunkChars then [(0, pyStrip text)]
  else chunkLoopIdxF text chunkChars.toNat (step_size chunkChars overlapChars) 0 text.length

theorem chunkLoopF_of_ge (text : Str) (chunkN s i f : Nat) (h : text.length ≤ i) :
    chunkLoopF text chunkN s i f = [] := by
  cases f with
  | zero => rfl
  | succ f => rw [chunkLoopF, if_neg (by omega)]

/-- Any fuel sufficient to carry the window start past the end of the text
yields the same result: the loop has terminated by then. -/
theorem chunkLoopF_fuel (text : Str) (chunkN s : Nat) (hs : 0 < s) :
    ∀ f1 f2 i, text.length ≤ i + f1 * s → text.length ≤ i + f2 * s →
      chunkLoopF text chunkN s i f1 = chunkLoopF text chunkN s i f2 := by
  intro f1
  induction f1 with
  | zero =>
    intro f2 i h1 _
    rw [chunkLoopF_of_ge text chunkN s i 0 (by omega),
        chunkLoopF_of_ge text chunkN s i f2 (by omega)]
  | succ f1 ih =>
    intro f2 i h1 h2
    cases f2 with
    | zero =>
      rw [chunkLoopF_of_ge text chunkN s i _ (by omega),
          chunkLoopF_of_ge text chunkN s i 0 (by omega)]
    | succ f2 =>
      by_cases hi : i < text.length
      · rw [chunkLoopF, chunkLoopF, if_pos hi, if_pos hi]
        congr 1
        exact ih f2 (i + s) (by rw [Nat.succ_mul] at h1; omega) (by rw [Nat.succ_mul] at h2; omega)
      · rw [chunkLoopF, chunkLoopF, if_neg hi, if_neg hi]

theorem chunkLoopF_length_le (text : Str) (chunkN s : Nat) :
    ∀ f i, (chunkLoopF text chunkN s i f).length ≤ f := by
  intro f
  induction f with
  | zero => intro i; simp [chunkLoopF]
  | succ f ih =>
    intro i
    rw [chunkLoopF]
    by_cases hi : i < text.length
    · rw [if_pos hi, List.length_append]
      have := ih (i + s)
      by_cases hseg : pyStrip ((text.drop i).take chunkN) = [] <;> simp [hseg] <;> omega
    · rw [if_neg hi]; simp

theorem mem_chunkLoopF (text : Str) (chunkN s : Nat) :
    ∀ f i, ∀ ch ∈ chunkLoopF text chunkN s i f,
      ch.length ≤ chunkN ∧ pyStrip ch = ch ∧ ch ≠ [] := by
  intro f
  induction f with
  | zero => intro i ch hch; simp [chunkLoopF] at hch
  | succ f ih =>
    intro i ch hch
    rw [chunkLoopF] at hch
    by_cases hi : i < text.length
    · rw [if_pos hi] at hch
      rcases List.mem_append.mp hch with hch | hch
      · by_cases hseg : pyStrip ((text.drop i).take chunkN) = []
        · simp [hseg] at hch
        · simp only [hseg, if_neg] at hch
          rcases List.mem_singleton.mp (by simpa [hseg] using hch) with rfl
          refine ⟨le_trans (pyStrip_length_le _) (List.length_take_le _ _), pyStrip_idem _, hseg⟩
      · exact ih (i + s) ch hch
    · rw [if_neg hi] at hch
      simp at hch

/-- C9.  `chunk_text` terminates for every input and every pair of integer
parameters, including `overlap ≥ chunk_size`: the derived step size is at
least 1, so the window start passes the end of the text after at most
`len(text)` iterations — giving the loop any more fuel changes nothing, and
the number of emitted chunks is bounded by `len(text)`. -/
theorem C9_chunk_text_terminates (text : Str) (chunkChars overlapChars : Int) (extra : Nat) :
    0 < step_size chunkChars overlapChars ∧
    chunkLoopF text chunkChars.toNat (step_size chunkChars overlapChars) 0 (text.length + extra) =
      chunkLoopF text chunkChars.toNat (step_size chunkChars overlapChars) 0 text.length ∧
    (chunk_text text chunkChars overlapChars).length ≤ text.length := by
  have hs := step_size_pos chunkChars overlapChars
  refine ⟨hs, ?_, ?_⟩
  · apply chunkLoopF_fuel text _ _ hs
    · have := Nat.le_mul_of_pos_right (text.length + extra) hs
      omega
    · have := Nat.le_mul_of_pos_right text.length hs
      omega
  · unfold chunk_text
    by_cases h1 : pyStrip text = []
    · simp [h1]
    · rw [if_neg h1]
      by_cases h2 : (text.length : Int) ≤ chunkChars
      · rw [if_pos h2]
        have hne : text ≠ [] := fun he => h1 (by rw [he]; rfl)
        have := List.length_pos.mpr hne
        simpa using this
      · rw [if_neg h2]
        exact chunkLoopF_length_le text _ _ _ 0

/-- C6.  For `chunk_size > overlap ≥ 0`: every chunk is at most
`chunk_size` characters and non-empty after trimming; blank input gives no
chunks; non-blank input of length at most `chunk_size` gives exactly the
single trimmed input. -/
theorem C6_chunk_text_bounds (text : Str) (c o : Int) (ho : 0 ≤ o) (hco : o < c) :
    (∀ ch ∈ chunk_text text c o, (ch.length : Int) ≤ c ∧ pyStrip ch ≠ []) ∧
    (pyStrip text = [] → chunk_text text c o = []) ∧
    (pyStrip text ≠ [] → (text.length : Int) ≤ c → chunk_text text c o = [pyStrip text]) := by
  refine ⟨?_, ?_, ?_⟩
  · intro ch hch
    unfold chunk_text at hch
    by_cases h1 : pyStrip text = []
    · simp [h1] at hch
    · rw [if_neg h1] at hch
      by_cases h2 : (text.length : Int) ≤ c
      · rw [if_pos h2] at hch
        rcases List.mem_singleton.mp hch with rfl
        constructor
        · have := pyStrip_length_le text
          omega
        · rw [pyStrip_idem]; exact h1
      · rw [if_neg h2] at hch
        obtain ⟨hlen, hidem, hne⟩ := mem_chunkLoopF text c.toNat _ _ 0 ch hch
        constructor
        · have : (c.toNat : Int) = c := Int.toNat_of_nonneg (by omega)
          omega
        · rw [hidem]; exact hne
  · intro h1
    unfold chunk_text
    rw [if_pos h1]
  · intro h1 h2
    unfold chunk_text
    rw [if_neg h1, if_pos h2]

/-- C6 witness: concrete evaluation at `"abcd"`, `chunk_size = 3`,
`overlap = 1`. -/
theorem C6_chunk_text_bounds_witness :
    (0 : Int) ≤ 1 ∧ (1 : Int) < 3 ∧
    ((∀ ch ∈ chunk_text "abcd".toList 3 1, (ch.length : Int) ≤ 3 ∧ pyStrip ch ≠ []) ∧
     (pyStrip "abcd".toList = [] → chunk_text "abcd".toList 3 1 = []) ∧
     (pyStrip "abcd".toList ≠ [] → ("abcd".toList.length : Int) ≤ 3 →
        chunk_text "abcd".toList 3 1 = [pyStrip "abcd".toList])) :=
  ⟨by decide, by decide, C6_chunk_text_bounds "abcd".toList 3 1 (by decide) (by decide)⟩

/-- Overlap, measured in positions of the original text of length `n`, of
the chunk windows starting at `i1 ≤ i2`: the window starting at `i` covers
positions `[i, min (i + chunkN) n)`. -/
def windowOverlap (n chunkN i1 i2 : Nat) : Int :=
  max 0 (min ((i1 : Int) + chunkN) n - i2)

/-- The overlap claim C3 asserts for a consecutive pair whose second window
starts at `i2`: `chunk_size - step_size`, clamped at the text end. -/
def claimedOverlap (n chunkN step i2 : Nat) : Int :=
  min ((chunkN : Int) - step) ((n : Int) - i2)

/-- Decidable statement of claim C3 over the indexed chunk list: every pair
of consecutive returned chunks overlaps by exactly the claimed amount. -/
def consecOverlapOK (n chunkN step : Nat) : List (Nat × Str) → Bool
  | a :: b :: rest =>
    decide (windowOverlap n chunkN a.1 b.1 = claimedOverlap n chunkN step b.1) &&
    consecOverlapOK n chunkN step (b :: rest)
  | _ => true

theorem chunkLoopIdxF_of_ge (text : Str) (chunkN s i f : Nat) (h : text.length ≤ i) :
    chunkLoopIdxF text chunkN s i f = [] := by
  cases f with
  | zero => rfl
  | succ f => rw [chunkLoopIdxF, if_neg (by omega)]

theorem chunkLoopIdxF_map_snd (text : Str) (chunkN s : Nat) :
    ∀ f i, (chunkLoopIdxF text chunkN s i f).map Prod.snd = chunkLoopF text chunkN s i f := by
  intro f
  induction f with
  | zero => intro i; rfl
  | succ f ih =>
    intro i
    rw [chunkLoopIdxF, chunkLoopF]
    by_cases hi : i < text.length
    · rw [if_pos hi, if_pos hi, List.map_append, ih (i + s)]
      congr 1
      by_cases hseg : pyStrip ((text.drop i).take chunkN) = [] <;> simp [hseg]
    · rw [if_neg hi, if_neg hi]; rfl

/-- The indexed chunk list erases to `chunk_text`. -/
theorem chunkTextIdx_map_snd (text : Str) (c o : Int) :
    (chunkTextIdx text c o).map Prod.snd = chunk_text text c o := by
  unfold chunkTextIdx chunk_text
  by_cases h1 : pyStrip text = []
  · rw [if_pos h1, if_pos h1]; rfl
  · rw [if_neg h1, if_neg h1]
    by_cases h2 : (text.length : Int) ≤ c
    · rw [if_pos h2, if_pos h2]; rfl
    · rw [if_neg h2, if_neg h2]
      exact chunkLoopIdxF_map_snd text _ _ _ 0

theorem consec_chunkLoopIdxF (text : Str) (chunkN s : Nat) (hs : 0 < s) (hsc : s ≤ chunkN)
    (H : ∀ j, j < text.length → pyStrip ((text.drop j).take chunkN) ≠ []) :
    ∀ f i, text.length ≤ i + f * s →
      consecOverlapOK text.length chunkN s (chunkLoopIdxF text chunkN s i f) = true ∧
      (i < text.length → ∃ t, chunkLoopIdxF text chunkN s i f =
        (i, pyStrip ((text.drop i).take chunkN)) :: t) := by
  intro f
  induction f with
  | zero =>
    intro i hf
    constructor
    · rw [chunkLoopIdxF_of_ge text chunkN s i 0 (by omega)]; rfl
    · intro hi; omega
  | succ f ih =>
    intro i hf
    by_cases hi : i < text.length
    · have hseg := H i hi
      have hstep : text.length ≤ (i + s) + f * s := by rw [Nat.succ_mul] at hf; omega
      have hrec := ih (i + s) hstep
      have hlist : chunkLoopIdxF text chunkN s i (f + 1) =
          (i, pyStrip ((text.drop i).take chunkN)) :: chunkLoopIdxF text chunkN s (i + s) f := by
        rw [chunkLoopIdxF, if_pos hi]
        simp only [hseg, if_neg]
        simp [hseg]
      refine ⟨?_, fun _ => ⟨_, hlist⟩⟩
      rw [hlist]
      by_cases hnext : i + s < text.length
      · obtain ⟨t, ht⟩ := hrec.2 hnext
        rw [ht]
        rw [consecOverlapOK, Bool.and_eq_true, decide_eq_true_eq]
        refine ⟨?_, by rw [← ht]; exact hrec.1⟩
        unfold windowOverlap claimedOverlap
        omega
      · rw [chunkLoopIdxF_of_ge text chunkN s (i + s) f (by omega)]
        rfl
    · constructor
      · rw [chunkLoopIdxF, if_neg hi]; rfl
      · intro h; omega

/-- C3 counterexample: with `text = "a   b"`, `chunk_size = 2`,
`overlap = 1` the all-whitespace windows at starts 1 and 2 are discarded,
so the consecutive returned chunks `"a"` (window start 0) and `"b"`
(window start 3) share no positions of the original text, while the claim
asserts an overlap of `chunk_size - step_size = 1`. -/
theorem C3_counterexample :
    chunkTextIdx "a   b".toList 2 1 =
      [(0, "a".toList), (3, "b".toList), (4, "b".toList)] ∧
    consecOverlapOK "a   b".toList.length 2 (step_size 2 1)
      (chunkTextIdx "a   b".toList 2 1) = false := by
  constructor
  · decide
  · decide

/-- C3 as amended: for `chunk_size > overlap ≥ 0`, provided every window
beginning before the end of the text is non-blank (so no window is
discarded), each pair of consecutive chunks overlaps by exactly
`chunk_size - step_size` characters measured against positions in the
original text, clamped at the text end; the indexed list erases to
`chunk_text`. -/
theorem C3_amended_consecutive_overlap (text : Str) (c o : Int) (ho : 0 ≤ o) (hco : o < c)
    (H : ∀ j, j < text.length → pyStrip ((text.drop j).take c.toNat) ≠ []) :
    consecOverlapOK text.length c.toNat (step_size c o) (chunkTextIdx text c o) = true ∧
    (chunkTextIdx text c o).map Prod.snd = chunk_text text c o := by
  refine ⟨?_, chunkTextIdx_map_snd text c o⟩
  have hs := step_size_pos c o
  have hsc : step_size c o ≤ c.toNat := by
    unfold step_size
    have h1 : max 1 (c - o) = c - o := max_eq_right (by omega)
    omega
  unfold chunkTextIdx
  by_cases h1 : pyStrip text = []
  · rw [if_pos h1]; rfl
  · rw [if_neg h1]
    by_cases h2 : (text.length : Int) ≤ c
    · rw [if_pos h2]; rfl
    · rw [if_neg h2]
      refine (consec_chunkLoopIdxF text c.toNat (step_size c o) hs hsc H text.length 0 ?_).1
      have := Nat.le_mul_of_pos_right text.length hs
      omega

/-- C3 amended witness: concrete evaluation at `"abcdef"`,
`chunk_size = 3`, `overlap = 1`, where no window is blank. -/
theorem C3_amended_witness :
    ((0 : Int) ≤ 1 ∧ (1 : Int) < 3 ∧
     (∀ j, j < "abcdef".toList.length →
        pyStrip (("abcdef".toList.drop j).take (3 : Int).toNat) ≠ [])) ∧
    (consecOverlapOK "abcdef".toList.length (3 : Int).toNat (step_size 3 1)
        (chunkTextIdx "abcdef".toList 3 1) = true ∧
     (chunkTextIdx "abcdef".toList 3 1).map Prod.snd = chunk_text "abcdef".toList 3 1) :=
  ⟨⟨by decide, by decide, by decide⟩,
   C3_amended_consecutive_overlap "abcdef".toList 3 1 (by decide) (by decide) (by decide)⟩

/-- A raised Python exception, by class name and message. -/
structure PyError where
  kind : String
  msg : String
deriving DecidableEq

/-- A metadata dict stored with a chunk: `{source, type, chunk}`;
`get` on a missing key yields `none`. -/
structure MetaDict where
  source : Option Str
  chunk : Option Int
  mtype : Option Str
deriving DecidableEq

/-- The raw result of `collection.query(...)`: matrices with one row per
query text; the `ids` key may be absent. -/
structure QueryResult where
  documents : List (List Str)
  metadatas : List (List MetaDict)
  distances : List (List Rat)
  ids : Option (List (List (Option Str)))

/-- A result record built by `retrieve_chunks`. -/
structure Record where
  document : Option Str
  source : Option Str
  chunk : Option Int
  rtype : Option Str
  id : Option Str
  distance : Rat
  score : Rat
deriving DecidableEq

/-- Decimal digits of a natural number, as Python `str(n)`; the fuel
argument (at least the digit count) keeps the recursion structural. -/
def natToStrAux (fuel : Nat) (n : Nat) : Str :=
  match fuel with
  | 0 => []
  | fuel + 1 =>
    if n < 10 then [Char.ofNat (48 + n)]
    else natToStrAux fuel (n / 10) ++ [Char.ofNat (48 + n % 10)]

/-- Python `str(n)` for a natural number. -/
def natToStr (n : Nat) : Str := natToStrAux (n + 1) n

/-- Python `str(i)` for an integer. -/
def intToStr (i : Int) : Str :=
  if i < 0 then '-' :: natToStr (-i).toNat else natToStr i.toNat

/-- Python `f"{x}"` for an optional string: `None` prints as `"None"`. -/
def pyShowOptStr (x : Option Str) : Str :=
  match x with
  | none => "None".toList
  | some s => s

/-- Python `f"{x}"` for an optional integer: `None` prints as `"None"`. -/
def pyShowOptInt (x : Option Int) : Str :=
  match x with
  | none => "None".toList
  | some i => intToStr i

/-- Build the per-hit record dicts of `retrieve_chunks`: the score is the
clamp of `1 - distance` into `[0, 1]`, and a fallback identifier
`f"{source}-{chunk}"` is synthesized when the ids row is too short. -/
def buildRecords (ids_ : List (Option Str)) : Nat → List (Str × MetaDict × Rat) → List Record
  | _, [] => []
  | i, (doc, md, dist) :: rest =>
    let score0 := 1 - dist
    let score1 := if score0 < 0 then 0 else score0
    let score2 := if score1 > 1 then 1 else score1
    let recId : Option Str :=
      match ids_.get? i with
      | some v => v
      | none => some (pyShowOptStr md.source ++ "-".toList ++ pyShowOptInt md.chunk)
    { document := some doc, source := md.source, chunk := md.chunk, rtype := md.mtype,
      id := recId, distance := dist, score := score2 } :: buildRecords ids_ (i + 1) rest

/-- Stable insertion by ascending `distance`; folding it over the records
models Python's stable `records.sort(key=lambda r: r["distance"])` (any two
stable sorts by the same key agree pointwise). -/
def insertByDistance (r : Record) : List Record → List Record
  | [] => [r]
  | x :: xs => if x.distance ≤ r.distance then x :: insertByDistance r xs else r :: x :: xs

/-- Python's stable ascending sort by the `distance` field. -/
def pySortByDistance (l : List Record) : List Record :=
  l.foldl (fun acc r => insertByDistance r acc) []

/-- Embedding of `retriever.retrieve_chunks`.  The Chroma collection is
abstracted as `store`, mapping the query text and `n_results` to the raw
query result; `ids` rows that are absent or empty fall back to `None`
entries, and an empty `documents` matrix returns no records. -/
def retrieve_chunks (store : Str → Int → QueryResult) (query : Str) (k : Int) :
    Except PyError (List Record) :=
  if pyStrip query = [] then Except.error ⟨"ValueError", "No query found"⟩
  else
    let k2 := max 1 k
    let result := store query k2
    match result.documents with
    | [] => Except.ok []
    | docs :: _ =>
      match result.metadatas with
      | [] => Except.error ⟨"IndexError", "list index out of range"⟩
      | metas :: _ =>
        match result.distances with
        | [] => Except.error ⟨"IndexError", "list index out of range"⟩
        | dists :: _ =>
          let ids_ : List (Option Str) :=
            match result.ids with
            | some (r :: _) => r
            | _ => List.replicate docs.length none
          Except.ok (pySortByDistance (buildRecords ids_ 0 (docs.zip (metas.zip dists))))

/-- A store whose collection is empty: every query returns empty matrices. -/
def emptyStore : Str → Int → QueryResult := fun _ _ => ⟨[], [], [], none⟩

/-- C8.  `retrieve_chunks` rejects blank queries with the input error, and
clamps `k` to at least 1, so `k = 0` behaves exactly as `k = 1`. -/
theorem C8_retrieve_chunks_validation :
    (∀ (store : Str → Int → QueryResult) (q : Str) (k : Int),
       pyStrip q = [] →
       retrieve_chunks store q k = Except.error ⟨"ValueError", "No query found"⟩) ∧
    (∀ (store : Str → Int → QueryResult) (q : Str),
       retrieve_chunks store q 0 = retrieve_chunks store q 1) := by
  constructor
  · intro store q k hq
    unfold retrieve_chunks
    rw [if_pos hq]
  · intro store q
    unfold retrieve_chunks
    norm_num

/-- C8 witness: the blank query `""` errors, and `k = 0` equals `k = 1` on
a concrete store. -/
theorem C8_retrieve_chunks_validation_witness :
    pyStrip ([] : Str) = [] ∧
    retrieve_chunks emptyStore [] 5 = Except.error ⟨"ValueError", "No query found"⟩ ∧
    retrieve_chunks emptyStore "x".toList 0 = retrieve_chunks emptyStore "x".toList 1 :=
  ⟨rfl, C8_retrieve_chunks_validation.1 emptyStore [] 5 rfl,
   C8_retrieve_chunks_validation.2 emptyStore "x".toList⟩

/-- The dedup key `(id, source, chunk)` used by `build_context`. -/
abbrev DedupKey := Option Str × Option Str × Option Int

/-- The labelled context block
`f"Source: {source} (chunk {chunk_index})\n{doc}\n\n"`. -/
def blockOf (source : Option Str) (chunkIdx : Option Int) (doc : Str) : Str :=
  "Source: ".toList ++ pyShowOptStr source ++ " (chunk ".toList ++
  pyShowOptInt chunkIdx ++ ")\n".toList ++ doc ++ "\n\n".toList

/-- The assembly loop of `build_context`: skips non-dict entries, entries
with an already-seen `(id, source, chunk)` key and blank documents, and the
first block that would push the total past the budget breaks the loop
outright. -/
def buildLoop (maxChars : Nat) : List (Option Record) → List DedupKey → Nat → List Str × List Record
  | [], _, _ => ([], [])
  | none :: rest, seen, total => buildLoop maxChars rest seen total
  | some c :: rest, seen, total =>
    let key : DedupKey := (c.id, c.source, c.chunk)
    if key ∈ seen then buildLoop maxChars rest seen total
    else
      let doc := pyStrip (c.document.getD [])
      if doc = [] then buildLoop maxChars rest (key :: seen) total
      else
        let block := blockOf c.source c.chunk doc
        if maxChars < total + block.length then ([], [])
        else
          let res := buildLoop maxChars rest (key :: seen) (total + block.length)
          (block :: res.1, c :: res.2)

/-- Embedding of `retriever.build_context`.  A `none` entry models a list
element that is not a dict (skipped by the `isinstance` guard); the
`chunks is None` error case does not arise for a list argument.  Negative
`max_chars` is clamped to 0. -/
def build_context (chunks : List (Option Record)) (maxChars : Int) : Str × List Record :=
  let m := (if maxChars < 0 then 0 else maxChars).toNat
  let res := buildLoop m chunks [] 0
  (res.1.flatten, res.2)

/-- Specification-side: the blocks eligible for inclusion, in order, after
the dedup and blank-document filters but ignoring the budget. -/
def eligBlocks : List (Option Record) → List DedupKey → List Str
  | [], _ => []
  | none :: rest, seen => eligBlocks rest seen
  | some c :: rest, seen =>
    let key : DedupKey := (c.id, c.source, c.chunk)
    if key ∈ seen then eligBlocks rest seen
    else
      let doc := pyStrip (c.document.getD [])
      if doc = [] then eligBlocks rest (key :: seen)
      else blockOf c.source c.chunk doc :: eligBlocks rest (key :: seen)

/-- Specification-side strict prefix truncation: keep blocks in order while
the running total fits the budget; the first overflowing block ends the
scan entirely, so no later block is considered. -/
def prefixFitFrom : List Str → Nat → Nat → List Str
  | [], _, _ => []
  | b :: bs, total, m =>
    if m < total + b.length then []
    else b :: prefixFitFrom bs (total + b.length) m

theorem buildLoop_blocks_eq (m : Nat) :
    ∀ chunks seen total,
      (buildLoop m chunks seen total).1 = prefixFitFrom (eligBlocks chunks seen) total m := by
  intro chunks
  induction chunks with
  | nil => intro seen total; rfl
  | cons c rest ih =>
    intro seen total
    match c with
    | none =>
      show (buildLoop m rest seen total).1 = prefixFitFrom (eligBlocks rest seen) total m
      exact ih seen total
    | some r =>
      by_cases hk : ((r.id, r.source, r.chunk) : DedupKey) ∈ seen
      · simp only [buildLoop, eligBlocks]
        rw [if_pos hk, if_pos hk]
        exact ih seen total
      · by_cases hd : pyStrip (r.document.getD []) = []
        · simp only [buildLoop, eligBlocks]
          rw [if_neg hk, if_neg hk, if_pos hd, if_pos hd]
          exact ih _ total
        · simp only [buildLoop, eligBlocks]
          rw [if_neg hk, if_neg hk, if_neg hd, if_neg hd, prefixFitFrom]
          by_cases ho : m < total + (blockOf r.source r.chunk (pyStrip (r.document.getD []))).length
          · rw [if_pos ho, if_pos ho]
          · rw [if_neg ho, if_neg ho]
            dsimp only
            rw [ih]

theorem prefixFitFrom_length (bs : List Str) :
    ∀ total m, total ≤ m → total + (prefixFitFrom bs total m).flatten.length ≤ m := by
  induction bs with
  | nil => intro t m h; simpa using h
  | cons b bs ih =>
    intro t m h
    rw [prefixFitFrom]
    by_cases ho : m < t + b.length
    · rw [if_pos ho]; simpa using h
    · rw [if_neg ho]
      have := ih (t + b.length) m (by omega)
      simp only [List.flatten_cons, List.length_append]
      omega

/-- C5.  The context string never exceeds the (clamped) budget, and
assembly is strict prefix truncation: `build_context` returns exactly the
longest prefix of the eligible blocks whose cumulative length fits, so the
first overflowing block stops the loop and no later (even shorter) block is
included. -/
theorem C5_build_context_budget (chunks : List (Option Record)) (maxChars : Int) :
    (((build_context chunks maxChars).1.length : Int) ≤ max 0 maxChars) ∧
    (build_context chunks maxChars).1 =
      (prefixFitFrom (eligBlocks chunks [])
        0 ((if maxChars < 0 then 0 else maxChars).toNat)).flatten := by
  have h2 : (build_context chunks maxChars).1 =
      (prefixFitFrom (eligBlocks chunks [])
        0 ((if maxChars < 0 then 0 else maxChars).toNat)).flatten := by
    simp only [build_context]
    rw [buildLoop_blocks_eq]
  refine ⟨?_, h2⟩
  rw [h2]
  by_cases hm : maxChars < 0
  · rw [if_pos hm]
    have hlen := prefixFitFrom_length (eligBlocks chunks []) 0 ((0 : Int).toNat) (by omega)
    omega
  · rw [if_neg hm]
    have hlen := prefixFitFrom_length (eligBlocks chunks []) 0 maxChars.toNat (by omega)
    omega

/-- The module constant `DEFAULT_SYSTEM` from `retriever.py`. -/
def DEFAULT_SYSTEM : Str :=
  ("You must answer strictly from the provided context. " ++
   "If the answer is not in the context, say you don").toList ++
  [Char.ofNat 39] ++ "t know.".toList

/-- The module constant `PERSONA` from `retriever.py` (the adjacent string
literals of the source concatenate to this single string). -/
def PERSONA : Str :=
  ("You are an assistant who will answer user questions," ++
   "using the provided context try and answer the query to the best of your ability, " ++
   "if you can not answer the query with the provided context, " ++
   "then answer with your own personal knowledge instead," ++
   "ignoring the context provided (seeing as it has no corelation to the query)," ++
   "if you still can not answer the query, then reply with I do not know").toList

/-- Embedding of `retriever.make_prompt`. -/
def make_prompt (query : Str) (context : Str) (system_msg : Str) : Except PyError Str :=
  if query = [] then Except.error ⟨"ValueError", "No query found"⟩
  else if context = [] then Except.error ⟨"ValueError", "No context found"⟩
  else
    let q := pyStrip query
    let c := pyStrip context
    if q = [] then Except.error ⟨"ValueError", "Query must be non-empty"⟩
    else if c = [] then Except.error ⟨"ValueError", "Context must be non-empty"⟩
    else
      let sys0 := pyStrip system_msg
      let sys := if sys0 = [] then DEFAULT_SYSTEM else sys0
      Except.ok (sys ++ "\n\nContext:\n".toList ++ c ++ "\n\nQuestion: ".toList ++ q ++
        "\nAnswer:".toList)

/-- The accumulation loop of `label_sources`: a dict is an insertion-ordered
association list, and `label_num` grows only when a new source is added. -/
def labelLoop : List Record → List (Option Str × Nat) → Nat → List (Option Str × Nat)
  | [], labels, _ => labels
  | c :: rest, labels, n =>
    if (labels.find? (fun p => decide (p.1 = c.source))).isSome then labelLoop rest labels n
    else labelLoop rest (labels ++ [(c.source, n)]) (n + 1)

/-- Embedding of `retriever.label_sources` (for a list argument; the
`chunks is None` error case cannot arise). -/
def label_sources (chunks : List Record) : List (Option Str × Nat) := labelLoop chunks [] 1

/-- A citation line `f"[{label}] {source} (chunk {chunk})"`. -/
def citeLine (label : Nat) (source : Option Str) (chunkIdx : Option Int) : Str :=
  "[".toList ++ natToStr label ++ "] ".toList ++ pyShowOptStr source ++
  " (chunk ".toList ++ pyShowOptInt chunkIdx ++ ")".toList

/-- The rendering loop of `render_answer_with_citations`: one line per
first-seen source, whose label is looked up in the mapping
(`mapping_sources[source]` raises `KeyError` when absent). -/
def citeLoop (mapping : List (Option Str × Nat)) :
    List Record → List (Option Str) → Except PyError (List Str)
  | [], _ => Except.ok []
  | c :: rest, seen =>
    if c.source ∈ seen then citeLoop mapping rest seen
    else
      match mapping.find? (fun p => decide (p.1 = c.source)) with
      | none => Except.error ⟨"KeyError", "source missing from mapping"⟩
      | some p =>
        match citeLoop mapping rest (c.source :: seen) with
        | Except.error e => Except.error e
        | Except.ok ls => Except.ok (citeLine p.2 c.source c.chunk :: ls)

/-- Embedding of `retriever.render_answer_with_citations` (for present
arguments; the `is None` guard cannot fire for list/string inputs). -/
def render_answer_with_citations (answerText : Str) (used : List Record) : Except PyError Str :=
  let mapping := label_sources used
  match citeLoop mapping used [] with
  | Except.error e => Except.error e
  | Except.ok ls =>
    Except.ok (List.intercalate "\n".toList ([pyRstrip answerText, [], "Sources:".toList] ++ ls))

/-- One entry of the compact per-source summary returned by `answer`. -/
structure SourceItem where
  source : Option Str
  chunk : Option Int
  score : Rat
  id : Option Str
deriving DecidableEq

/-- The dict returned by `answer`. -/
structure AnswerResult where
  answer : Str
  prompt : Str
  sources : List SourceItem
deriving DecidableEq

/-- Embedding of `retriever.answer`.  The opened collection is abstracted
as `store` and the language-model transport (`call_llm`) as the total
function `llm`.  Note that the source passes the module constant `PERSONA`
to `make_prompt`, leaving its own `system_msg` parameter unused. -/
def answer (store : Str → Int → QueryResult) (llm : Str → Str) (query : Str)
    (k : Int) (max_context_chars : Int) (system_msg : Str) (with_citations : Bool) :
    Except PyError AnswerResult :=
  if pyStrip query = [] then Except.error ⟨"ValueError", "query is empty"⟩
  else
    match retrieve_chunks store query k with
    | Except.error e => Except.error e
    | Except.ok chunks =>
      let bc := build_context (chunks.map some) max_context_chars
      match make_prompt query bc.1 PERSONA with
      | Except.error e => Except.error e
      | Except.ok prompt =>
        let raw := llm prompt
        if pyStrip raw = [] then Except.error ⟨"RuntimeError", "Model returned no output"⟩
        else
          match (if with_citations then render_answer_with_citations raw bc.2
                 else Except.ok (pyStrip raw)) with
          | Except.error e => Except.error e
          | Except.ok final =>
            Except.ok ⟨final, prompt, bc.2.map (fun r =>
              { source := r.source, chunk := r.chunk, score := r.score, id := r.id })⟩

/-- Reading a Python local that may not have been assigned: an unbound
local raises `UnboundLocalError`. -/
def readLocal {α : Type} (varName : String) (v : Option α) : Except PyError α :=
  match v with
  | some x => Except.ok x
  | none => Except.error ⟨"UnboundLocalError",
      "cannot access local variable " ++ varName ++ " where it is not associated with a value"⟩

/-- Embedding of `ingest.load_pdf` for a string path argument.  The file
system is abstracted as `fs`, mapping a path to its pages' extracted text
(inner `none` for a page with no extractable text, which `or ""` turns
into the empty string; outer `none` when the path does not exist, in which
case `open(file_obj, "rb")` raises `FileNotFoundError`).  When `open`
fails the local `file` is still unbound: the `except FileNotFoundError`
handler interpolates `file` into its message, and the `finally` clause
calls `file.close()`, so both raise `UnboundLocalError`; the one raised in
`finally` is the one that escapes. -/
def load_pdf (fs : Str → Option (List (Option Str))) (path : Str) : Except PyError Str :=
  match fs path with
  | some pages =>
    Except.ok (List.intercalate "\n".toList (pages.map (fun p => p.getD [])))
  | none =>
    let file : Option Unit := none
    match readLocal "file" file with
    | Except.ok _ => Except.error ⟨"ValueError", "PDF does not exist"⟩
    | Except.error e1 =>
      match readLocal "file" file with
      | Except.ok _ => Except.error e1
      | Except.error e2 => Except.error e2

/-- C4 (code bug).  On a non-existent path `load_pdf` does not raise the
intended extraction `ValueError` naming the source: `open` fails before
the local `file` is bound, and both the `except` handler (which
interpolates `file` into its message) and the `finally` clause (which
calls `file.close()`) hit the unbound local, so an `UnboundLocalError`
whose message never mentions the path escapes instead. -/
theorem C4_load_pdf_missing_path (path : Str) :
    load_pdf (fun _ => none) path =
      Except.error ⟨"UnboundLocalError",
        "cannot access local variable file where it is not associated with a value"⟩ := rfl

/-- Specification-side accumulator: distinct values in first-seen order,
relative to the already-seen set. -/
def firstSeenAux : List (Option Str) → List (Option Str) → List (Option Str)
  | [], _ => []
  | a :: rest, seen =>
    if a ∈ seen then firstSeenAux rest seen
    else a :: firstSeenAux rest (a :: seen)

/-- Specification-side: distinct values in first-seen order. -/
def firstSeen (l : List (Option Str)) : List (Option Str) := firstSeenAux l []

theorem find_source_isSome (labels : List (Option Str × Nat)) (s : Option Str) :
    (labels.find? (fun p => decide (p.1 = s))).isSome = true ↔ s ∈ labels.map Prod.fst := by
  rw [List.find?_isSome]
  constructor
  · rintro ⟨p, hp, hps⟩
    simp only [decide_eq_true_eq] at hps
    exact List.mem_map.mpr ⟨p, hp, hps⟩
  · intro h
    rcases List.mem_map.mp h with ⟨p, hp, rfl⟩
    exact ⟨p, hp, by simp⟩

theorem labelLoop_snd (chunks : List Record) :
    ∀ labels n, labels.map Prod.snd = List.range' 1 labels.length →
      n = labels.length + 1 →
      (labelLoop chunks labels n).map Prod.snd =
        List.range' 1 (labelLoop chunks labels n).length := by
  induction chunks with
  | nil => intro labels n h1 _; exact h1
  | cons c rest ih =>
    intro labels n h1 h2
    rw [labelLoop]
    by_cases hf : (labels.find? (fun p => decide (p.1 = c.source))).isSome = true
    · rw [if_pos hf]; exact ih labels n h1 h2
    · rw [if_neg hf]
      apply ih
      · rw [List.map_append, h1, List.length_append]
        have hcat : List.range' 1 (labels.length + 1) =
            List.range' 1 labels.length ++ [1 + 1 * labels.length] :=
          List.range'_concat 1 labels.length
        simp only [one_mul] at hcat
        simp only [List.map_cons, List.map_nil, List.length_cons, List.length_nil]
        rw [h2, hcat]
        simp [Nat.add_comm]
      · simp [List.length_append, h2]

theorem firstSeenAux_congr (l : List (Option Str)) :
    ∀ s1 s2, (∀ a, a ∈ s1 ↔ a ∈ s2) → firstSeenAux l s1 = firstSeenAux l s2 := by
  induction l with
  | nil => intro s1 s2 _; rfl
  | cons a rest ih =>
    intro s1 s2 h
    rw [firstSeenAux, firstSeenAux]
    by_cases h1 : a ∈ s1
    · rw [if_pos h1, if_pos ((h a).mp h1)]
      exact ih s1 s2 h
    · rw [if_neg h1, if_neg (fun hx => h1 ((h a).mpr hx))]
      congr 1
      apply ih
      intro b
      simp [h b]

theorem labelLoop_fst (chunks : List Record) :
    ∀ labels n,
      (labelLoop chunks labels n).map Prod.fst =
        labels.map Prod.fst ++
          firstSeenAux (chunks.map (fun c => c.source)) (labels.map Prod.fst) := by
  induction chunks with
  | nil => intro labels n; simp [labelLoop, firstSeenAux]
  | cons c rest ih =>
    intro labels n
    rw [labelLoop]
    simp only [List.map_cons, firstSeenAux]
    by_cases hf : (labels.find? (fun p => decide (p.1 = c.source))).isSome = true
    · rw [if_pos hf]
      have hmem : c.source ∈ labels.map Prod.fst := (find_source_isSome _ _).mp hf
      rw [if_pos hmem]
      exact ih labels n
    · rw [if_neg hf]
      have hmem : c.source ∉ labels.map Prod.fst :=
        fun h => hf ((find_source_isSome _ _).mpr h)
      rw [if_neg hmem, ih]
      rw [List.map_append]
      simp only [List.map_cons, List.map_nil]
      rw [List.append_assoc, List.singleton_append]
      congr 2
      apply firstSeenAux_congr
      intro b
      simp [List.mem_append, or_comm]

theorem mem_firstSeenAux (l : List (Option Str)) :
    ∀ seen a, a ∈ l → a ∈ firstSeenAux l seen ∨ a ∈ seen := by
  induction l with
  | nil => intro seen a h; simp at h
  | cons x rest ih =>
    intro seen a h
    rw [firstSeenAux]
    by_cases hx : x ∈ seen
    · rw [if_pos hx]
      rcases List.mem_cons.mp h with rfl | h
      · right; exact hx
      · exact ih seen a h
    · rw [if_neg hx]
      rcases List.mem_cons.mp h with rfl | h
      · left; exact List.mem_cons_self _ _
      · rcases ih (x :: seen) a h with h1 | h1
        · left; exact List.mem_cons_of_mem _ h1
        · rcases List.mem_cons.mp h1 with rfl | h1
          · left; exact List.mem_cons_self _ _
          · right; exact h1

theorem source_mem_label_sources (used : List Record) (r : Record) (hr : r ∈ used) :
    r.source ∈ (label_sources used).map Prod.fst := by
  rw [label_sources, labelLoop_fst used [] 1]
  simp only [List.map_nil, List.nil_append]
  have hmem : r.source ∈ used.map (fun c => c.source) := List.mem_map.mpr ⟨r, hr, rfl⟩
  rcases mem_firstSeenAux _ [] r.source hmem with h | h
  · exact h
  · simp at h

theorem citeLoop_ok (mapping : List (Option Str × Nat)) (used : List Record) :
    ∀ seen : List (Option Str),
      (∀ r ∈ used, r.source ∈ mapping.map Prod.fst) →
      ∃ ls, citeLoop mapping used seen = Except.ok ls := by
  induction used with
  | nil => intro seen _; exact ⟨[], rfl⟩
  | cons c rest ih =>
    intro seen hall
    rw [citeLoop]
    by_cases hs : c.source ∈ seen
    · rw [if_pos hs]
      exact ih seen (fun r hr => hall r (List.mem_cons_of_mem _ hr))
    · rw [if_neg hs]
      have hfind : (mapping.find? (fun p => decide (p.1 = c.source))).isSome = true :=
        (find_source_isSome _ _).mpr (hall c (List.mem_cons_self _ _))
      rcases hm : mapping.find? (fun p => decide (p.1 = c.source)) with _ | p
      · rw [hm] at hfind; simp at hfind
      · rw [hm]
        obtain ⟨ls, hls⟩ := ih (c.source :: seen)
          (fun r hr => hall r (List.mem_cons_of_mem _ hr))
        rw [hls]
        exact ⟨_, rfl⟩

/-- C10.  `label_sources` assigns the labels 1, 2, ... to the distinct
source values (including `none` for records without a source) in
first-seen order, and `render_answer_with_citations` never errors on its
output, listing a `none` source in the Sources section like any other,
printed as `None`. -/
theorem C10_label_sources_and_render :
    (∀ chunks : List Record,
       (label_sources chunks).map Prod.snd = List.range' 1 (label_sources chunks).length ∧
       (label_sources chunks).map Prod.fst = firstSeen (chunks.map (fun c => c.source))) ∧
    (∀ (ans : Str) (used : List Record),
       ∃ y, render_answer_with_citations ans used = Except.ok y) ∧
    render_answer_with_citations "ans".toList
        [{ document := some "d".toList, source := none, chunk := some 0, rtype := none,
           id := some "i".toList, distance := 0, score := 1 }] =
      Except.ok ("ans\n\nSources:\n[1] None (chunk 0)".toList) := by
  refine ⟨?_, ?_, by rfl⟩
  · intro chunks
    constructor
    · exact labelLoop_snd chunks [] 1 rfl rfl
    · rw [label_sources, labelLoop_fst chunks [] 1]
      simp [firstSeen]
  · intro ans used
    obtain ⟨ls, hls⟩ := citeLoop_ok (label_sources used) used []
      (fun r hr => source_mem_label_sources used r hr)
    rw [render_answer_with_citations, hls]
    exact ⟨_, rfl⟩

theorem make_prompt_empty_context (q : Str) (sys : Str) (hq : q ≠ []) :
    make_prompt q [] sys = Except.error ⟨"ValueError", "No context found"⟩ := by
  unfold make_prompt
  rw [if_neg hq, if_pos rfl]

/-- C1 counterexample: on an empty collection `answer("What is RAG?")`
does fail — the empty context is rejected by `make_prompt`, so the call
raises `ValueError("No context found")` instead of returning a result with
an empty sources list. -/
theorem C1_counterexample :
    answer emptyStore (fun _ => "stub".toList) "What is RAG?".toList 5 6000
        DEFAULT_SYSTEM true =
      Except.error ⟨"ValueError", "No context found"⟩ := rfl

/-- C1 as amended: for any non-blank query against a store whose query
yields an empty documents matrix (an empty collection), `answer` raises
`ValueError("No context found")`: retrieval validly returns no records,
but the resulting empty context is rejected by `make_prompt`, so no
result (with an empty sources list or otherwise) is returned. -/
theorem C1_amended_answer_empty_collection (store : Str → Int → QueryResult)
    (llm : Str → Str) (q : Str) (k maxCtx : Int) (sysMsg : Str) (wc : Bool)
    (hq : pyStrip q ≠ []) (hstore : (store q (max 1 k)).documents = []) :
    answer store llm q k maxCtx sysMsg wc =
      Except.error ⟨"ValueError", "No context found"⟩ := by
  have hq' : q ≠ [] := fun he => hq (by rw [he]; rfl)
  have hret : retrieve_chunks store q k = Except.ok [] := by
    unfold retrieve_chunks
    rw [if_neg hq]
    simp only [hstore]
  unfold answer
  rw [if_neg hq, hret]
  dsimp only
  rw [show (build_context (List.map some ([] : List Record)) maxCtx).1 = ([] : Str) from rfl,
      make_prompt_empty_context q PERSONA hq']

/-- C1 amended witness: the hypotheses hold for the concrete empty store
and the query of the spec's example. -/
theorem C1_amended_witness :
    (pyStrip "What is RAG?".toList ≠ [] ∧
     (emptyStore "What is RAG?".toList (max 1 5)).documents = []) ∧
    answer emptyStore (fun _ => "stub".toList) "What is RAG?".toList 5 6000
        DEFAULT_SYSTEM true =
      Except.error ⟨"ValueError", "No context found"⟩ :=
  ⟨⟨by decide, rfl⟩,
   C1_amended_answer_empty_collection emptyStore (fun _ => "stub".toList)
     "What is RAG?".toList 5 6000 DEFAULT_SYSTEM true (by decide) rfl⟩

/-- A store holding a single matching document for any query. -/
def oneDocStore : Str → Int → QueryResult := fun _ _ =>
  { documents := [["d".toList]],
    metadatas := [[{ source := some "s".toList, chunk := some 0, mtype := some "pdf".toList }]],
    distances := [[(0 : Rat)]],
    ids := some [[some "id0".toList]] }

set_option maxRecDepth 100000 in
/-- C2 (code bug).  `answer` hardcodes the module constant `PERSONA` in
its `make_prompt` call, leaving its `system_msg` parameter unused: the
prompt of a successful call begins with `PERSONA`, not with a supplied
system message, and not with the default policy string when the parameter
is left at its default. -/
theorem C2_prompt_ignores_system_msg :
    (answer oneDocStore (fun _ => "ok".toList) "q".toList 5 6000 "CUSTOM".toList
        true).toOption.map (fun r => r.prompt.take PERSONA.length) = some PERSONA ∧
    (answer oneDocStore (fun _ => "ok".toList) "q".toList 5 6000 "CUSTOM".toList
        true).toOption.map (fun r => r.prompt.take "CUSTOM".toList.length) ≠
      some ("CUSTOM".toList) ∧
    (answer oneDocStore (fun _ => "ok".toList) "q".toList 5 6000 DEFAULT_SYSTEM
        true).toOption.map (fun r => r.prompt.take DEFAULT_SYSTEM.length) ≠
      some DEFAULT_SYSTEM := by
  refine ⟨by decide, by decide, by decide⟩
